import Mathlib

/-!
Shallow embedding of the PyConc concordance application
(source: src/Concordancer_v1.py) and proofs of its specified properties.

Text is modelled as `List Char`. External collaborators (the spaCy
tokenizer, the `re` regex engine's match-attempt function, the per-encoding
byte decoders) enter as function parameters, exactly at the interface the
source code uses them.
-/

set_option autoImplicit false

universe u

/-- One concordance line, as appended to `all_concordance_data`:
`(filename, pre_context, match, post_context)`. -/
structure MatchRecord where
  filename : List Char
  pre_context : List Char
  matched_text : List Char
  post_context : List Char
  deriving DecidableEq, Repr

/-- Python `str.lower()` restricted to the ASCII letters that the
application's comparisons exercise (`Char.toLower` lowers exactly A-Z). -/
def pyLower (s : List Char) : List Char := s.map Char.toLower

/-- Whitespace test of Python `str.split()` (the ASCII whitespace class). -/
def pyIsSpace (c : Char) : Bool :=
  c = ' ' || c = '\t' || c = '\n' || c = '\x0b' || c = '\x0c' || c = '\r'

/-- Helper for `splitWs`: accumulates the current word reversed. -/
def splitWsAux : List Char → List Char → List (List Char)
  | [], acc => if acc.isEmpty then [] else [acc.reverse]
  | c :: rest, acc =>
    if pyIsSpace c then
      if acc.isEmpty then splitWsAux rest [] else acc.reverse :: splitWsAux rest []
    else splitWsAux rest (c :: acc)

/-- Python `str.split()` with no arguments: split on runs of whitespace,
discarding empty words. -/
def splitWs (s : List Char) : List (List Char) := splitWsAux s []

/-- Python `" ".join(words)`. -/
def joinSpace (ws : List (List Char)) : List Char := List.intercalate [' '] ws

/-- Python slice `l[-w:]` for a nonnegative `w`: the last `w` elements,
or the whole list when `w = 0`. -/
def pyLastSlice {α : Type u} (l : List α) (w : Nat) : List α :=
  if w = 0 then l else l.drop (l.length - w)

/-- The match test of the Simple Keyword branch (lines 106-109):
`token_text == search_text` after lowering both sides unless
`case_sensitive`. -/
def tokenMatches (search_term tok : List Char) (case_sensitive : Bool) : Bool :=
  (if case_sensitive then tok else pyLower tok)
    = (if case_sensitive then search_term else pyLower search_term)

/-- The record the Simple Keyword branch emits for a matching token at
position `i` (lines 110-112): `pre_context` joins `doc[max(0, i - w):i]`,
`matched_text` is the token's original text, `post_context` joins
`doc[i + 1:i + 1 + w]`. -/
def mkKeywordRecord (filename : List Char) (tokens : List (List Char))
    (w i : Nat) : MatchRecord :=
  { filename := filename
    pre_context := joinSpace ((tokens.take i).drop (i - w))
    matched_text := tokens.getD i []
    post_context := joinSpace ((tokens.drop (i + 1)).take w) }

/-- The Simple Keyword branch (lines 104-112): enumerate token positions
and emit a record for each token equal to the search term. The tokenizer's
output `tokens` is the `doc` the source obtains from `nlp(text)`. -/
def keywordSearch (filename : List Char) (tokens : List (List Char))
    (search_term : List Char) (case_sensitive : Bool) (w : Nat) : List MatchRecord :=
  (List.range tokens.length).filterMap fun i =>
    if tokenMatches search_term (tokens.getD i []) case_sensitive then
      some (mkKeywordRecord filename tokens w i)
    else none

/-- The record the Regex branch emits for a match spanning `[s, e)`
(lines 117-128): split the text before `s` and after `e` on whitespace,
keep the last / first `context_window` words (`pre_text[-w:]` resp.
`post_text[:w]` when there are more than `w`), and take the matched
substring verbatim (`match.group()` is `text[s:e]`). -/
def mkRegexRecord (filename text : List Char) (w s e : Nat) : MatchRecord :=
  let pre_text := splitWs (text.take s)
  let post_text := splitWs (text.drop e)
  { filename := filename
    pre_context :=
      joinSpace (if pre_text.length > w then pyLastSlice pre_text w else pre_text)
    matched_text := (text.take e).drop s
    post_context :=
      joinSpace (if post_text.length > w then post_text.take w else post_text) }

example : splitWs "The cat sat".toList = ["The".toList, "cat".toList, "sat".toList] := by decide
example : splitWs "  a  b ".toList = ["a".toList, "b".toList] := by decide
example : keywordSearch "f".toList (splitWs "The cat sat".toList) "the".toList false 5
    = [⟨"f".toList, [], "The".toList, "cat sat".toList⟩] := by decide

/-- Modelled from the spec: the `re` library's `pattern.finditer(text)`
iteration, which the source consumes at line 116 and whose semantics the
spec fixes as standard leftmost-first non-overlapping scanning that
resumes at the end of the previous match (advancing by one position on an
empty-width match so scanning progresses; empty matches are permitted).
`matchAt p` is the engine's attempt at position `p`, returning the end
offset of the match it produces there, if any. `fuel` bounds recursion;
`finditer` supplies enough for the whole text. -/
def finditerAux (matchAt : Nat → Option Nat) (n : Nat) : Nat → Nat → List (Nat × Nat)
  | 0, _ => []
  | fuel + 1, p =>
    if p ≤ n then
      match matchAt p with
      | some e => (p, e) :: finditerAux matchAt n fuel (max e (p + 1))
      | none => finditerAux matchAt n fuel (p + 1)
    else []

/-- All match spans `(start, end)` of the compiled pattern over a text of
length `n`, in scan order. -/
def finditer (matchAt : Nat → Option Nat) (n : Nat) : List (Nat × Nat) :=
  finditerAux matchAt n (n + 1) 0

/-- The Regex branch for one file (lines 116-128): one record per span
`finditer` yields, in iteration order. -/
def regexSearchFile (filename text : List Char) (w : Nat)
    (matchAt : Nat → Option Nat) : List MatchRecord :=
  (finditer matchAt text.length).map fun se => mkRegexRecord filename text w se.1 se.2

/-- The two search modes of the radio widget. -/
inductive SearchType where
  | simpleKeyword
  | regularExpression
  deriving DecidableEq, Repr

/-- Number of records whose key equals `k`. -/
def countOcc (keys : List (List Char)) (k : List Char) : Nat :=
  (keys.filter fun x => x = k).length

/-- Pandas `Series.value_counts` as the source uses it (lines 169, 175):
one `(key, count)` row per distinct key, each count the number of rows
carrying that key. (The display sorts rows by descending count; row order
carries no contract here, only the counts do.) -/
def valueCounts (keys : List (List Char)) : List (List Char × Nat) :=
  keys.dedup.map fun k => (k, countOcc keys k)

/-- The Summary Statistics block (lines 143, 168-178): tables are shown
only when `all_concordance_data` is nonempty; `file_stats` counts records
per file, and `pattern_stats` is computed only in regex mode. -/
def summaryStats (st : SearchType) (records : List MatchRecord) :
    Option (List (List Char × Nat)) × Option (List (List Char × Nat)) :=
  if records.isEmpty then (none, none)
  else
    (some (valueCounts (records.map (fun r => r.filename))),
      match st with
      | SearchType.regularExpression =>
          some (valueCounts (records.map (fun r => r.matched_text)))
      | SearchType.simpleKeyword => none)

/-- Records one file contributes once its text is read (lines 102-128):
tokenizer-based keyword search or `finditer`-based regex search. -/
def processFile (nlpTok : List Char → List (List Char)) (st : SearchType)
    (matcher : List Char → Nat → Option Nat) (search_term : List Char)
    (case_sensitive : Bool) (w : Nat) (filename text : List Char) : List MatchRecord :=
  match st with
  | SearchType.simpleKeyword =>
      keywordSearch filename (nlpTok text) search_term case_sensitive w
  | SearchType.regularExpression =>
      regexSearchFile filename text w (matcher text)

/-- The per-file try block (lines 96-132), records part: a file whose read
fails contributes nothing; otherwise it contributes its search records. -/
def fileRecords {α : Type u} (nlpTok : List Char → List (List Char)) (st : SearchType)
    (matcher : List Char → Nat → Option Nat) (search_term : List Char)
    (case_sensitive : Bool) (w : Nat) (readF : α → Except (List Char) (List Char))
    (f : List Char × α) : List MatchRecord :=
  match readF f.2 with
  | Except.error _ => []
  | Except.ok text => processFile nlpTok st matcher search_term case_sensitive w f.1 text

/-- The per-file try block (lines 130-132), warnings part: a failing file
surfaces one `st.error` message naming the file, then the loop continues. -/
def fileWarnings {α : Type u} (readF : α → Except (List Char) (List Char))
    (f : List Char × α) : List (List Char × List Char) :=
  match readF f.2 with
  | Except.error e => [(f.1, e)]
  | Except.ok _ => []

/-- The file loop (line 91): files processed in upload order, records
appended in order to `all_concordance_data`. -/
def allRecords {α : Type u} (nlpTok : List Char → List (List Char)) (st : SearchType)
    (matcher : List Char → Nat → Option Nat) (search_term : List Char)
    (case_sensitive : Bool) (w : Nat) (readF : α → Except (List Char) (List Char))
    (files : List (List Char × α)) : List MatchRecord :=
  files.flatMap (fileRecords nlpTok st matcher search_term case_sensitive w readF)

/-- All warnings surfaced by the file loop, in file order. -/
def allWarnings {α : Type u} (readF : α → Except (List Char) (List Char))
    (files : List (List Char × α)) : List (List Char × List Char) :=
  files.flatMap (fileWarnings readF)

/-- The fallback candidate list of `detect_and_read_file` (line 28). -/
def fallback_encodings : List (List Char) :=
  ["utf-8".toList, "latin-1".toList, "iso-8859-1".toList, "cp1252".toList, "ascii".toList]

/-- The fallback loop of `detect_and_read_file` (lines 39-44): try each
candidate in order with the decoder `d`, returning the first success
together with the encoding that produced it. -/
def tryDecodeList (d : List Char → List (Fin 256) → Option (List Char))
    (raw : List (Fin 256)) : List (List Char) → Option (List Char × List Char)
  | [] => none
  | enc :: rest =>
    match d enc raw with
    | some t => some (t, enc)
    | none => tryDecodeList d raw rest

/-- `detect_and_read_file` (lines 14-46): `detected` is `chardet.detect`'s
result, `d` decodes bytes under a named encoding (`none` standing for a
`UnicodeDecodeError`). Try the detected encoding first when there is one,
fall through to the fixed candidate list on failure, and return `none`
(the final `raise`) when every candidate fails. -/
def detect_and_read_file (d : List Char → List (Fin 256) → Option (List Char))
    (detected : Option (List Char)) (raw : List (Fin 256)) :
    Option (List Char × List Char) :=
  match detected with
  | some enc =>
    match d enc raw with
    | some t => some (t, enc)
    | none => tryDecodeList d raw fallback_encodings
  | none => tryDecodeList d raw fallback_encodings

/-- Python's `latin-1` codec: total on bytes, each byte mapped to the
Unicode code point of the same value. -/
def latin1Decode (raw : List (Fin 256)) : List Char :=
  raw.map fun b => Char.ofNat b.val

/-- A `filterMap` over an `if`-guarded emission is a `map` over the
filtered inputs. -/
theorem filterMap_ite_eq_map_filter {α β : Type} (p : α → Bool) (f : α → β) (l : List α) :
    (l.filterMap fun a => if p a then some (f a) else none) = (l.filter p).map f := by
  induction l with
  | nil => rfl
  | cons a l ih =>
    by_cases h : p a <;> simp [List.filterMap_cons, List.filter_cons, h, ih]

/-- Modelled from the spec: the external tokenizer (spaCy's `nlp`, loaded
at line 12, outside this repository) must "yield the same token boundaries
a human would use for words"; on plain space-separated words those
boundaries coincide with whitespace splitting. -/
def specTokenize (text : List Char) : List (List Char) := splitWs text

/-- Python's `\w` class restricted to the ASCII range the examples use. -/
def isWordChar (c : Char) : Bool := c.isAlphanum || c = '_'

/-- Length of the maximal run of word characters starting at `p`. -/
def wordRunLen (text : List Char) (p : Nat) : Nat :=
  ((text.drop p).takeWhile isWordChar).length

/-- Modelled from the spec: the match attempt of the compiled pattern
`\w+ing` (the spec's example regex) at position `p` — greedy `\w+`
backtracking until the literal `ing` fits, i.e. the largest `j` not
exceeding the word-character run at `p` with `j ≥ 4` and
`text[p + j - 3 : p + j] = "ing"`. -/
def matchAtWing (text : List Char) (p : Nat) : Option Nat :=
  (((List.range (wordRunLen text p + 1)).filter fun j =>
      decide (4 ≤ j) && ((text.take (p + j)).drop (p + j - 3) == "ing".toList)).getLast?).map
    fun j => p + j

example : finditer (matchAtWing "running jumping xyz".toList) 19 = [(0, 7), (8, 15)] := by decide

/-- What one completed search displays: the concordance lines, the per-file
error messages, and the two optional statistics tables. -/
structure AppOutput where
  records : List MatchRecord
  warnings : List (List Char × List Char)
  file_stats : Option (List (List Char × Nat))
  pattern_stats : Option (List (List Char × Nat))
  deriving DecidableEq, Repr

/-- Outcome of one search request: nothing happens when the search term is
empty (line 81), a compile failure reaches the top-level `re.error` handler
(lines 203-205), otherwise the search completes. -/
inductive AppResult where
  | noSearch
  | patternError (msg : List Char)
  | done (out : AppOutput)
  deriving DecidableEq, Repr

/-- The search pipeline under the uploader (lines 81-205): guard on a
nonempty term; in regex mode compile the pattern first (lines 84-88) —
a compile failure aborts before any file is touched — then loop over the
files and aggregate. `reCompile` is the `re.compile` interface: given the
pattern and the case flag it yields a per-text match-attempt function or a
syntax-error message. -/
def runApp {α : Type u} (nlpTok : List Char → List (List Char))
    (reCompile : List Char → Bool → Except (List Char) (List Char → Nat → Option Nat))
    (readF : α → Except (List Char) (List Char)) (files : List (List Char × α))
    (st : SearchType) (search_term : List Char) (case_sensitive : Bool)
    (w : Nat) : AppResult :=
  if search_term = [] then AppResult.noSearch
  else
    match st with
    | SearchType.simpleKeyword =>
        let rs := allRecords nlpTok SearchType.simpleKeyword (fun _ _ => none)
          search_term case_sensitive w readF files
        AppResult.done
          { records := rs
            warnings := allWarnings readF files
            file_stats := (summaryStats SearchType.simpleKeyword rs).1
            pattern_stats := (summaryStats SearchType.simpleKeyword rs).2 }
    | SearchType.regularExpression =>
        match reCompile search_term case_sensitive with
        | Except.error e => AppResult.patternError e
        | Except.ok matcher =>
            let rs := allRecords nlpTok SearchType.regularExpression matcher
              search_term case_sensitive w readF files
            AppResult.done
              { records := rs
                warnings := allWarnings readF files
                file_stats := (summaryStats SearchType.regularExpression rs).1
                pattern_stats := (summaryStats SearchType.regularExpression rs).2 }

/-- C1: In simple-keyword mode, for every document, every window size
`w ≥ 1` and every matching token position `i`, the emitted record's
`pre_context` joins exactly `min w i` tokens forming the final segment of
the tokens before `i` (no padding near the document start, original order
kept), and its `post_context` joins at most `w` tokens forming the initial
segment of the tokens after `i`. -/
theorem c1_keyword_context_window (filename : List Char) (tokens : List (List Char))
    (search_term : List Char) (case_sensitive : Bool) (w i : Nat)
    (hw : 1 ≤ w) (hi : i < tokens.length)
    (hm : tokenMatches search_term (tokens.getD i []) case_sensitive = true) :
    mkKeywordRecord filename tokens w i ∈
      keywordSearch filename tokens search_term case_sensitive w ∧
    (∃ ctx front, tokens.take i = front ++ ctx ∧ ctx.length = min w i ∧
      (mkKeywordRecord filename tokens w i).pre_context = joinSpace ctx) ∧
    (∃ rctx back, tokens.drop (i + 1) = rctx ++ back ∧ rctx.length ≤ w ∧
      (mkKeywordRecord filename tokens w i).post_context = joinSpace rctx) := by
  refine ⟨?_, ?_, ?_⟩
  · simp only [keywordSearch, List.mem_filterMap, List.mem_range]
    exact ⟨i, hi, by rw [if_pos hm]⟩
  · refine ⟨(tokens.take i).drop (i - w), (tokens.take i).take (i - w),
      (List.take_append_drop _ _).symm, ?_, rfl⟩
    simp only [List.length_drop, List.length_take]
    omega
  · refine ⟨(tokens.drop (i + 1)).take w, (tokens.drop (i + 1)).drop w,
      (List.take_append_drop _ _).symm, ?_, rfl⟩
    simp only [List.length_take]
    omega

theorem c1_witness :
    mkKeywordRecord ("f".toList) ["The".toList, "cat".toList, "sat".toList] 1 2 ∈
      keywordSearch ("f".toList) ["The".toList, "cat".toList, "sat".toList]
        ("sat".toList) false 1 ∧
    (∃ ctx front, (["The".toList, "cat".toList, "sat".toList]).take 2 = front ++ ctx ∧
      ctx.length = min 1 2 ∧
      (mkKeywordRecord ("f".toList) ["The".toList, "cat".toList, "sat".toList] 1 2).pre_context
        = joinSpace ctx) ∧
    (∃ rctx back, (["The".toList, "cat".toList, "sat".toList]).drop 3 = rctx ++ back ∧
      rctx.length ≤ 1 ∧
      (mkKeywordRecord ("f".toList) ["The".toList, "cat".toList, "sat".toList] 1 2).post_context
        = joinSpace rctx) :=
  c1_keyword_context_window ("f".toList) ["The".toList, "cat".toList, "sat".toList]
    ("sat".toList) false 1 2 (by decide) (by decide) (by decide)

/-- C2: In regex mode, the emitted record's `pre_context` joins the last
`min w len` words of the whitespace-split text strictly before the match
start, `post_context` joins the first `min w len` words of the
whitespace-split text strictly after the match end, and `matched_text` is
the exact matched substring `text[s:e]`. -/
theorem c2_regex_context (filename text : List Char) (w s e : Nat) (hw : 1 ≤ w) :
    (mkRegexRecord filename text w s e).pre_context =
      joinSpace ((splitWs (text.take s)).drop
        ((splitWs (text.take s)).length - min w (splitWs (text.take s)).length)) ∧
    (mkRegexRecord filename text w s e).post_context =
      joinSpace ((splitWs (text.drop e)).take (min w (splitWs (text.drop e)).length)) ∧
    (mkRegexRecord filename text w s e).matched_text = (text.take e).drop s := by
  refine ⟨?_, ?_, rfl⟩
  · show joinSpace (if (splitWs (text.take s)).length > w
        then pyLastSlice (splitWs (text.take s)) w else splitWs (text.take s)) = _
    by_cases h : (splitWs (text.take s)).length > w
    · rw [if_pos h]
      unfold pyLastSlice
      rw [if_neg (by omega)]
      congr 1
      congr 1
      omega
    · rw [if_neg h]
      have h0 : (splitWs (text.take s)).length - min w (splitWs (text.take s)).length = 0 := by
        omega
      rw [h0, List.drop_zero]
  · show joinSpace (if (splitWs (text.drop e)).length > w
        then (splitWs (text.drop e)).take w else splitWs (text.drop e)) = _
    by_cases h : (splitWs (text.drop e)).length > w
    · rw [if_pos h]
      congr 1
      congr 1
      omega
    · rw [if_neg h]
      have hmin : min w (splitWs (text.drop e)).length = (splitWs (text.drop e)).length := by
        omega
      rw [hmin, List.take_length]

theorem c2_witness :
    (mkRegexRecord ("f".toList) ("a b c d".toList) 1 4 5).pre_context =
      joinSpace ((splitWs (("a b c d".toList).take 4)).drop
        ((splitWs (("a b c d".toList).take 4)).length -
          min 1 (splitWs (("a b c d".toList).take 4)).length)) ∧
    (mkRegexRecord ("f".toList) ("a b c d".toList) 1 4 5).post_context =
      joinSpace ((splitWs (("a b c d".toList).drop 5)).take
        (min 1 (splitWs (("a b c d".toList).drop 5)).length)) ∧
    (mkRegexRecord ("f".toList) ("a b c d".toList) 1 4 5).matched_text =
      (("a b c d".toList).take 5).drop 4 :=
  c2_regex_context ("f".toList) ("a b c d".toList) 1 4 5 (by decide)

/-- C3: In simple-keyword mode a record is emitted exactly for the token
positions whose text equals the pattern (both sides lowered unless
`case_sensitive`), the record's `matched_text` is the token's original
text, and the case-insensitive search for "the" over "The cat sat" yields
the single match "The" with its original casing. -/
theorem c3_keyword_match_iff :
    (∀ (filename : List Char) (tokens : List (List Char)) (search_term : List Char)
        (case_sensitive : Bool) (w : Nat) (r : MatchRecord),
      r ∈ keywordSearch filename tokens search_term case_sensitive w ↔
        ∃ i, i < tokens.length ∧
          tokenMatches search_term (tokens.getD i []) case_sensitive = true ∧
          r = mkKeywordRecord filename tokens w i) ∧
    (∀ (filename : List Char) (tokens : List (List Char)) (w i : Nat),
      (mkKeywordRecord filename tokens w i).matched_text = tokens.getD i []) ∧
    keywordSearch ("f".toList) (specTokenize ("The cat sat".toList)) ("the".toList) false 5 =
      [{ filename := "f".toList, pre_context := [], matched_text := "The".toList,
         post_context := "cat sat".toList }] := by
  refine ⟨?_, fun _ _ _ _ => rfl, by decide⟩
  intro filename tokens search_term case_sensitive w r
  simp only [keywordSearch, List.mem_filterMap, List.mem_range]
  constructor
  · rintro ⟨i, hi, hf⟩
    by_cases hm : tokenMatches search_term (tokens.getD i []) case_sensitive
    · rw [if_pos hm] at hf
      exact ⟨i, hi, hm, (Option.some.inj hf).symm⟩
    · rw [if_neg hm] at hf
      exact absurd hf (Option.noConfusion)
  · rintro ⟨i, hi, hm, rfl⟩
    exact ⟨i, hi, by rw [if_pos hm]⟩

/-- Membership in a `valueCounts` table: exactly the keys occurring in the
input, each paired with its exact occurrence count. -/
theorem valueCounts_mem_iff (keys : List (List Char)) (k : List Char) (c : Nat) :
    (k, c) ∈ valueCounts keys ↔ k ∈ keys ∧ c = countOcc keys k := by
  unfold valueCounts
  rw [List.mem_map]
  constructor
  · rintro ⟨a, ha, heq⟩
    cases heq
    exact ⟨List.mem_dedup.mp ha, rfl⟩
  · rintro ⟨hk, rfl⟩
    exact ⟨k, List.mem_dedup.mpr hk, rfl⟩

/-- C4 (counterexample): in simple-keyword mode the Summary Statistics
block computes no by-pattern table, even for a nonempty ResultSet — the
source guards the `Match` `value_counts` behind the Regular Expression
branch. -/
theorem c4_counterexample :
    ¬ ∃ tbl, (summaryStats SearchType.simpleKeyword
      [⟨"a.txt".toList, [], "cat".toList, []⟩]).2 = some tbl := by
  rintro ⟨tbl, h⟩
  simp [summaryStats] at h

/-- C4 (amended): for every nonempty ResultSet the Summary Statistics
block produces a by-file table whose rows are exactly the occurring
filenames with their exact record counts, in both modes; the by-pattern
table, produced only in regex mode, likewise carries exact and exhaustive
counts of the matched texts; and the two-file example yields
`byFile = {a.txt: 1, b.txt: 2}` with ResultSet length 3. -/
theorem c4_amended_summary :
    (∀ (st : SearchType) (records : List MatchRecord), records ≠ [] →
      ∃ tbl, (summaryStats st records).1 = some tbl ∧
        ∀ k c, (k, c) ∈ tbl ↔ k ∈ records.map (fun r => r.filename) ∧
          c = countOcc (records.map fun r => r.filename) k) ∧
    (∀ (records : List MatchRecord), records ≠ [] →
      ∃ tbl, (summaryStats SearchType.regularExpression records).2 = some tbl ∧
        ∀ k c, (k, c) ∈ tbl ↔ k ∈ records.map (fun r => r.matched_text) ∧
          c = countOcc (records.map fun r => r.matched_text) k) ∧
    (∀ records : List MatchRecord,
      (summaryStats SearchType.simpleKeyword records).2 = none) ∧
    ((summaryStats SearchType.regularExpression
        [⟨"a.txt".toList, [], "cat".toList, []⟩,
         ⟨"b.txt".toList, [], "cat".toList, []⟩,
         ⟨"b.txt".toList, [], "cat".toList, []⟩]).1 =
      some [("a.txt".toList, 1), ("b.txt".toList, 2)] ∧
     ([⟨"a.txt".toList, [], "cat".toList, []⟩,
       ⟨"b.txt".toList, [], "cat".toList, []⟩,
       ⟨"b.txt".toList, [], "cat".toList, []⟩] : List MatchRecord).length = 3) := by
  refine ⟨?_, ?_, ?_, by decide, by decide⟩
  · rintro st (_ | ⟨r, rs⟩) h
    · exact absurd rfl h
    · exact ⟨valueCounts ((r :: rs).map fun x => x.filename), by simp [summaryStats],
        fun k c => valueCounts_mem_iff _ k c⟩
  · rintro (_ | ⟨r, rs⟩) h
    · exact absurd rfl h
    · exact ⟨valueCounts ((r :: rs).map fun x => x.matched_text), by simp [summaryStats],
        fun k c => valueCounts_mem_iff _ k c⟩
  · rintro (_ | ⟨r, rs⟩) <;> simp [summaryStats]

theorem c4_witness :
    ∃ tbl, (summaryStats SearchType.simpleKeyword
      [⟨"w.txt".toList, [], "dog".toList, []⟩]).1 = some tbl ∧
      ∀ k c, (k, c) ∈ tbl ↔
        k ∈ ([⟨"w.txt".toList, [], "dog".toList, []⟩] : List MatchRecord).map
          (fun r => r.filename) ∧
        c = countOcc (([⟨"w.txt".toList, [], "dog".toList, []⟩] : List MatchRecord).map
          fun r => r.filename) k :=
  c4_amended_summary.1 SearchType.simpleKeyword
    [⟨"w.txt".toList, [], "dog".toList, []⟩] (by decide)

/-- C5: a regex compile failure aborts the search before any file is read:
the outcome is the single pattern error, it is identical for every corpus,
and no completed output is produced. The nonempty-term hypothesis loses no
generality: the empty pattern is valid regex syntax (in the source it is
filtered out by the `if search_term` guard before compilation), so every
syntactically invalid pattern is nonempty. -/
theorem c5_pattern_error {α : Type u} (nlpTok : List Char → List (List Char))
    (reCompile : List Char → Bool → Except (List Char) (List Char → Nat → Option Nat))
    (readF : α → Except (List Char) (List Char)) (files : List (List Char × α))
    (search_term : List Char) (case_sensitive : Bool) (w : Nat) (e : List Char)
    (hterm : search_term ≠ [])
    (hc : reCompile search_term case_sensitive = Except.error e) :
    runApp nlpTok reCompile readF files SearchType.regularExpression search_term
      case_sensitive w = AppResult.patternError e ∧
    (∀ files' : List (List Char × α),
      runApp nlpTok reCompile readF files' SearchType.regularExpression search_term
        case_sensitive w = AppResult.patternError e) ∧
    (∀ out, runApp nlpTok reCompile readF files SearchType.regularExpression search_term
      case_sensitive w ≠ AppResult.done out) := by
  have key : ∀ files' : List (List Char × α),
      runApp nlpTok reCompile readF files' SearchType.regularExpression search_term
        case_sensitive w = AppResult.patternError e := by
    intro files'
    unfold runApp
    rw [if_neg hterm]
    show (match reCompile search_term case_sensitive with
      | Except.error e => AppResult.patternError e
      | Except.ok matcher => AppResult.done _) = _
    rw [hc]
  refine ⟨key files, key, fun out hout => ?_⟩
  rw [key files] at hout
  exact AppResult.noConfusion hout

theorem c5_witness :
    runApp (fun _ => []) (fun _ _ => Except.error ("missing parenthesis".toList))
      (fun _ : Unit => Except.ok []) [(("a.txt".toList), ())] SearchType.regularExpression
      ("(".toList) false 5 = AppResult.patternError ("missing parenthesis".toList) :=
  (c5_pattern_error (fun _ => []) (fun _ _ => Except.error ("missing parenthesis".toList))
    (fun _ : Unit => Except.ok []) [(("a.txt".toList), ())] ("(".toList) false 5
    ("missing parenthesis".toList) (by decide) rfl).1

/-- C6: a per-file read failure is non-fatal: the failing file contributes
no records, it surfaces one warning naming the file, and the loop's output
over the remaining files is exactly what it would be without the failing
file — processing continues. -/
theorem c6_file_skip {α : Type u} (nlpTok : List Char → List (List Char)) (st : SearchType)
    (matcher : List Char → Nat → Option Nat) (search_term : List Char)
    (case_sensitive : Bool) (w : Nat) (readF : α → Except (List Char) (List Char))
    (name : List Char) (b : α) (msg : List Char) (pre post : List (List Char × α))
    (hfail : readF b = Except.error msg) :
    fileRecords nlpTok st matcher search_term case_sensitive w readF (name, b) = [] ∧
    fileWarnings readF (name, b) = [(name, msg)] ∧
    allRecords nlpTok st matcher search_term case_sensitive w readF (pre ++ (name, b) :: post)
      = allRecords nlpTok st matcher search_term case_sensitive w readF pre ++
        allRecords nlpTok st matcher search_term case_sensitive w readF post ∧
    allWarnings readF (pre ++ (name, b) :: post)
      = allWarnings readF pre ++ (name, msg) :: allWarnings readF post := by
  have h1 : fileRecords nlpTok st matcher search_term case_sensitive w readF (name, b) = [] := by
    simp [fileRecords, hfail]
  have h2 : fileWarnings readF (name, b) = [(name, msg)] := by
    simp [fileWarnings, hfail]
  refine ⟨h1, h2, ?_, ?_⟩
  · simp [allRecords, List.flatMap_append, List.flatMap_cons, h1]
  · simp [allWarnings, List.flatMap_append, List.flatMap_cons, h2]

theorem c6_witness :
    allRecords (fun _ => [[]]) SearchType.simpleKeyword (fun _ _ => none) ("cat".toList)
      false 5 (fun x : Bool => if x then Except.ok [] else Except.error ("boom".toList))
      ([(("good.txt".toList), true)] ++ (("bad.txt".toList), false) :: [])
      = allRecords (fun _ => [[]]) SearchType.simpleKeyword (fun _ _ => none) ("cat".toList)
          false 5 (fun x : Bool => if x then Except.ok [] else Except.error ("boom".toList))
          [(("good.txt".toList), true)] ++
        allRecords (fun _ => [[]]) SearchType.simpleKeyword (fun _ _ => none) ("cat".toList)
          false 5 (fun x : Bool => if x then Except.ok [] else Except.error ("boom".toList))
          [] :=
  (c6_file_skip (fun _ => [[]]) SearchType.simpleKeyword (fun _ _ => none) ("cat".toList)
    false 5 (fun x : Bool => if x then Except.ok [] else Except.error ("boom".toList))
    ("bad.txt".toList) false ("boom".toList) [(("good.txt".toList), true)] [] rfl).2.2.1

/-- C10: with an empty search term no search runs in either mode: the
outcome is `noSearch` — no records, no tables, no pattern error — for
every corpus and every compile function. -/
theorem c10_empty_term {α : Type u} (nlpTok : List Char → List (List Char))
    (reCompile : List Char → Bool → Except (List Char) (List Char → Nat → Option Nat))
    (readF : α → Except (List Char) (List Char)) (files : List (List Char × α))
    (st : SearchType) (search_term : List Char) (case_sensitive : Bool) (w : Nat)
    (hterm : search_term = []) :
    runApp nlpTok reCompile readF files st search_term case_sensitive w
      = AppResult.noSearch ∧
    (∀ msg, runApp nlpTok reCompile readF files st search_term case_sensitive w
      ≠ AppResult.patternError msg) ∧
    (∀ out, runApp nlpTok reCompile readF files st search_term case_sensitive w
      ≠ AppResult.done out) := by
  subst hterm
  have h : runApp nlpTok reCompile readF files st [] case_sensitive w
      = AppResult.noSearch := by
    unfold runApp
    rw [if_pos rfl]
  refine ⟨h, fun msg hmsg => ?_, fun out hout => ?_⟩
  · rw [h] at hmsg
    exact AppResult.noConfusion hmsg
  · rw [h] at hout
    exact AppResult.noConfusion hout

theorem c10_witness :
    runApp (fun _ => []) (fun _ _ => Except.error []) (fun _ : Unit => Except.ok [])
      [(("a.txt".toList), ())] SearchType.regularExpression [] false 5
      = AppResult.noSearch :=
  (c10_empty_term (fun _ => []) (fun _ _ => Except.error []) (fun _ : Unit => Except.ok [])
    [(("a.txt".toList), ())] SearchType.regularExpression [] false 5 rfl).1

/-- Every span `finditerAux` yields starts at or after the scan position. -/
theorem finditerAux_start_le (matchAt : Nat → Option Nat) (n : Nat) :
    ∀ fuel p : Nat, ∀ se ∈ finditerAux matchAt n fuel p, p ≤ se.1 := by
  intro fuel
  induction fuel with
  | zero =>
    intro p se h
    simp only [finditerAux] at h
    exact absurd h (List.not_mem_nil se)
  | succ fuel ih =>
    intro p se h
    simp only [finditerAux] at h
    split at h
    · cases hm : matchAt p with
      | some e =>
        rw [hm] at h
        rcases List.mem_cons.mp h with h1 | h1
        · subst h1
          exact Nat.le_refl p
        · have h2 := ih (max e (p + 1)) se h1
          have h3 := Nat.le_max_right e (p + 1)
          omega
      | none =>
        rw [hm] at h
        have h2 := ih (p + 1) se h
        omega
    · exact absurd h (List.not_mem_nil se)

/-- The spans `finditerAux` yields have strictly increasing starts. -/
theorem finditerAux_pairwise (matchAt : Nat → Option Nat) (n : Nat) :
    ∀ fuel p : Nat,
      List.Pairwise (fun a b : Nat × Nat => a.1 < b.1) (finditerAux matchAt n fuel p) := by
  intro fuel
  induction fuel with
  | zero =>
    intro p
    simp only [finditerAux]
    exact List.Pairwise.nil
  | succ fuel ih =>
    intro p
    simp only [finditerAux]
    split
    · cases hm : matchAt p with
      | some e =>
        refine List.Pairwise.cons ?_ (ih (max e (p + 1)))
        intro b hb
        have h1 := finditerAux_start_le matchAt n fuel (max e (p + 1)) b hb
        have h2 := Nat.le_max_right e (p + 1)
        omega
      | none => exact ih (p + 1)
    · exact List.Pairwise.nil

/-- Length of a `flatMap` is the sum of the per-element lengths. -/
theorem length_flatMap_eq_sum {α : Type u} {β : Type} (f : α → List β) (l : List α) :
    (l.flatMap f).length = (l.map fun a => (f a).length).sum := by
  induction l with
  | nil => rfl
  | cons a l ih => simp [List.flatMap_cons, ih]

/-- Every record a file contributes carries that file's name. -/
theorem fileRecords_filename {α : Type u} (nlpTok : List Char → List (List Char))
    (st : SearchType) (matcher : List Char → Nat → Option Nat) (search_term : List Char)
    (case_sensitive : Bool) (w : Nat) (readF : α → Except (List Char) (List Char))
    (f : List Char × α) (r : MatchRecord)
    (hr : r ∈ fileRecords nlpTok st matcher search_term case_sensitive w readF f) :
    r.filename = f.1 := by
  unfold fileRecords at hr
  split at hr
  · exact absurd hr (List.not_mem_nil r)
  · unfold processFile at hr
    split at hr
    · obtain ⟨i, hi, hf⟩ := List.mem_filterMap.mp hr
      split at hf
      · cases Option.some.inj hf
        rfl
      · exact absurd hf Option.noConfusion
    · obtain ⟨se, hse, heq⟩ := List.mem_map.mp hr
      cases heq
      rfl

/-- C7: the ResultSet is the in-order concatenation of per-file record
lists, every record of a file's list carrying that file's name (grouping
by document in corpus iteration order); the total record count is the sum
over files of the matches found there; within a document, keyword records
follow strictly increasing token positions and regex records map
one-to-one onto `finditer`'s spans, whose start offsets are strictly
increasing; and the spec's example `\w+ing` over "running jumping xyz"
yields "running" then "jumping", in that order. -/
theorem c7_ordering :
    (∀ (α : Type u) (nlpTok : List Char → List (List Char)) (st : SearchType)
        (matcher : List Char → Nat → Option Nat) (search_term : List Char)
        (case_sensitive : Bool) (w : Nat) (readF : α → Except (List Char) (List Char))
        (files : List (List Char × α)),
      allRecords nlpTok st matcher search_term case_sensitive w readF files =
        files.flatMap (fileRecords nlpTok st matcher search_term case_sensitive w readF) ∧
      (allRecords nlpTok st matcher search_term case_sensitive w readF files).length =
        (files.map fun f =>
          (fileRecords nlpTok st matcher search_term case_sensitive w readF f).length).sum ∧
      ∀ f ∈ files, ∀ r ∈ fileRecords nlpTok st matcher search_term case_sensitive w readF f,
        r.filename = f.1) ∧
    (∀ (filename : List Char) (tokens : List (List Char)) (search_term : List Char)
        (case_sensitive : Bool) (w : Nat),
      keywordSearch filename tokens search_term case_sensitive w =
        ((List.range tokens.length).filter
          (fun i => tokenMatches search_term (tokens.getD i []) case_sensitive)).map
          (mkKeywordRecord filename tokens w) ∧
      List.Pairwise (fun a b : Nat => a < b)
        ((List.range tokens.length).filter
          (fun i => tokenMatches search_term (tokens.getD i []) case_sensitive))) ∧
    (∀ (filename text : List Char) (w : Nat) (matchAt : Nat → Option Nat),
      regexSearchFile filename text w matchAt =
        (finditer matchAt text.length).map
          (fun se => mkRegexRecord filename text w se.1 se.2) ∧
      List.Pairwise (fun a b : Nat × Nat => a.1 < b.1) (finditer matchAt text.length) ∧
      (regexSearchFile filename text w matchAt).length =
        (finditer matchAt text.length).length) ∧
    regexSearchFile ("f".toList) ("running jumping xyz".toList) 5
        (matchAtWing ("running jumping xyz".toList)) =
      [⟨"f".toList, [], "running".toList, "jumping xyz".toList⟩,
       ⟨"f".toList, "running".toList, "jumping".toList, "xyz".toList⟩] := by
  refine ⟨?_, ?_, ?_, by decide⟩
  · intro α nlpTok st matcher search_term case_sensitive w readF files
    refine ⟨rfl, length_flatMap_eq_sum _ files, ?_⟩
    intro f _ r hr
    exact fileRecords_filename nlpTok st matcher search_term case_sensitive w readF f r hr
  · intro filename tokens search_term case_sensitive w
    constructor
    · exact filterMap_ite_eq_map_filter _ _ _
    · exact List.Pairwise.sublist (List.filter_sublist _) (List.pairwise_lt_range _)
  · intro filename text w matchAt
    exact ⟨rfl, finditerAux_pairwise matchAt text.length (text.length + 1) 0,
      List.length_map _ _⟩

theorem c7_witness :
    regexSearchFile ("f".toList) ("running jumping xyz".toList) 5
        (matchAtWing ("running jumping xyz".toList)) =
      (finditer (matchAtWing ("running jumping xyz".toList))
          (("running jumping xyz".toList).length)).map
        (fun se => mkRegexRecord ("f".toList) ("running jumping xyz".toList) 5 se.1 se.2) :=
  (c7_ordering.{0}.2.2.1 ("f".toList) ("running jumping xyz".toList) 5
    (matchAtWing ("running jumping xyz".toList))).1

/-- C8: decoding tries the statistically detected encoding first; when
detection yields nothing or the detected decode fails, the fixed candidate
list is walked in order — a success returns the decoded text together with
the succeeding encoding (the pair line 100 records per file), every
earlier candidate having failed — and the final raise (`none`, the spec's
DecodeError) results exactly when every candidate fails. -/
theorem tryDecodeList_cons (d : List Char → List (Fin 256) → Option (List Char))
    (raw : List (Fin 256)) (enc : List Char) (rest : List (List Char)) :
    tryDecodeList d raw (enc :: rest) =
      match d enc raw with
      | some t => some (t, enc)
      | none => tryDecodeList d raw rest := by
  conv_lhs => rw [tryDecodeList]

theorem detect_and_read_file_some (d : List Char → List (Fin 256) → Option (List Char))
    (raw : List (Fin 256)) (enc : List Char) :
    detect_and_read_file d (some enc) raw =
      match d enc raw with
      | some t => some (t, enc)
      | none => tryDecodeList d raw fallback_encodings := rfl

theorem c8_encoding_order (d : List Char → List (Fin 256) → Option (List Char))
    (raw : List (Fin 256)) :
    (∀ enc t, d enc raw = some t →
      detect_and_read_file d (some enc) raw = some (t, enc)) ∧
    (detect_and_read_file d none raw = tryDecodeList d raw fallback_encodings) ∧
    (∀ enc, d enc raw = none →
      detect_and_read_file d (some enc) raw = tryDecodeList d raw fallback_encodings) ∧
    (∀ encs : List (List Char),
      (tryDecodeList d raw encs = none ↔ ∀ e ∈ encs, d e raw = none)) ∧
    (∀ (encs : List (List Char)) (t enc : List Char),
      tryDecodeList d raw encs = some (t, enc) →
      ∃ l1 l2, encs = l1 ++ enc :: l2 ∧ d enc raw = some t ∧
        ∀ e ∈ l1, d e raw = none) := by
  refine ⟨?_, rfl, ?_, ?_, ?_⟩
  · intro enc t h
    rw [detect_and_read_file_some, h]
  · intro enc h
    rw [detect_and_read_file_some, h]
  · intro encs
    induction encs with
    | nil => simp [tryDecodeList]
    | cons a rest ih =>
      cases ha : d a raw with
      | some t => simp [tryDecodeList, ha]
      | none => simp [tryDecodeList, ha, ih]
  · intro encs
    induction encs with
    | nil =>
      intro t enc h
      exact absurd h (by simp [tryDecodeList])
    | cons a rest ih =>
      intro t enc h
      cases ha : d a raw with
      | some t' =>
        simp only [tryDecodeList, ha, Option.some.injEq, Prod.mk.injEq] at h
        obtain ⟨rfl, rfl⟩ := h
        exact ⟨[], rest, rfl, ha, by intro e he; exact absurd he (List.not_mem_nil e)⟩
      | none =>
        simp only [tryDecodeList, ha] at h
        obtain ⟨l1, l2, heq, hd, hall⟩ := ih t enc h
        refine ⟨a :: l1, l2, by rw [heq]; rfl, hd, ?_⟩
        intro e he
        rcases List.mem_cons.mp he with rfl | he'
        · exact ha
        · exact hall e he'

theorem c8_witness :
    detect_and_read_file (fun _ _ => some ['x']) (some ("utf-8".toList))
      ([] : List (Fin 256)) = some (['x'], "utf-8".toList) :=
  (c8_encoding_order (fun _ _ => some ['x']) ([] : List (Fin 256))).1
    ("utf-8".toList) ['x'] rfl

/-- C9: because the `latin-1` codec decodes every byte sequence, reading
always succeeds: some `(text, encoding)` pair is returned for every input
— the all-candidates-failed raise is unreachable — and the returned
encoding is either the detected one or comes from the fallback walk no
later than `latin-1`, so `cp1252` and `ascii` are never the deciding
fallback candidates. -/
theorem c9_latin1_total (d : List Char → List (Fin 256) → Option (List Char))
    (detected : Option (List Char)) (raw : List (Fin 256))
    (hl : ∀ r, d ("latin-1".toList) r = some (latin1Decode r)) :
    ∃ t enc, detect_and_read_file d detected raw = some (t, enc) ∧
      (detected = some enc ∨ enc = "utf-8".toList ∨ enc = "latin-1".toList) := by
  have hlist : fallback_encodings = ("utf-8".toList) :: ("latin-1".toList) ::
      ("iso-8859-1".toList) :: ("cp1252".toList) :: [("ascii".toList)] := rfl
  have hfb : ∃ t enc, tryDecodeList d raw fallback_encodings = some (t, enc) ∧
      (enc = "utf-8".toList ∨ enc = "latin-1".toList) := by
    cases h8 : d ("utf-8".toList) raw with
    | some t =>
      refine ⟨t, "utf-8".toList, ?_, Or.inl rfl⟩
      rw [hlist, tryDecodeList_cons, h8]
    | none =>
      refine ⟨latin1Decode raw, "latin-1".toList, ?_, Or.inr rfl⟩
      rw [hlist, tryDecodeList_cons, h8]
      show tryDecodeList d raw (("latin-1".toList) :: ("iso-8859-1".toList) ::
        ("cp1252".toList) :: [("ascii".toList)]) = _
      rw [tryDecodeList_cons, hl raw]
  cases detected with
  | none =>
    obtain ⟨t, enc, h, henc⟩ := hfb
    exact ⟨t, enc, h, Or.inr henc⟩
  | some enc0 =>
    cases hd : d enc0 raw with
    | some t =>
      refine ⟨t, enc0, ?_, Or.inl rfl⟩
      rw [detect_and_read_file_some, hd]
    | none =>
      obtain ⟨t, enc, h, henc⟩ := hfb
      refine ⟨t, enc, ?_, Or.inr henc⟩
      rw [detect_and_read_file_some, hd]
      exact h

theorem c9_witness :
    ∃ t enc, detect_and_read_file
        (fun enc r => if enc = "latin-1".toList then some (latin1Decode r) else none)
        none [(255 : Fin 256)] = some (t, enc) ∧
      ((none : Option (List Char)) = some enc ∨ enc = "utf-8".toList ∨
        enc = "latin-1".toList) :=
  c9_latin1_total
    (fun enc r => if enc = "latin-1".toList then some (latin1Decode r) else none)
    none [(255 : Fin 256)] (fun r => by simp)
